import Mathlib

/-!
Shallow embedding of the sax-tutorial app core (src/src/App.tsx and
src/src/fingerPositions.ts): the timeline clock, the note lookup engine,
the finger-position tables and the note-list editor operations, together
with theorems settling the specification claims about them.

Times and durations are modelled as rationals; JS arrays as lists; the
JS object/array semantics relevant to the editor (holes, spread of
`undefined`, assignment past the end) is modelled explicitly where a
claim depends on it.
-/

namespace Sax

/-- A timed note, as in the `Note` interface of App.tsx:
`{ note: string; duration: number; time: number }`. -/
structure Note where
  note : String
  duration : ℚ
  time : ℚ
deriving DecidableEq, Repr

/-- End of a note's sounding interval: `note.time + note.duration`. -/
def noteEnd (n : Note) : ℚ := n.time + n.duration

/-- `getCurrentNote` from App.tsx (lines 313-321): scan `song.notes` in
order and return the name of the first note whose interval
`[time, time+duration)` contains `t`; `null` (here `none`) otherwise. -/
def getCurrentNote (t : ℚ) : List Note → Option String
  | [] => none
  | n :: ns =>
    if n.time ≤ t ∧ t < n.time + n.duration then some n.note
    else getCurrentNote t ns

/-- The loop of `getCurrentNoteIndex` from App.tsx (lines 324-332),
with the running index made explicit. -/
def getCurrentNoteIndexFrom (t : ℚ) (i : ℤ) : List Note → ℤ
  | [] => -1
  | n :: ns =>
    if n.time ≤ t ∧ t < n.time + n.duration then i
    else getCurrentNoteIndexFrom t (i + 1) ns

/-- `getCurrentNoteIndex` from App.tsx: index of the first note whose
interval contains `t`, or `-1`. -/
def getCurrentNoteIndex (t : ℚ) (ns : List Note) : ℤ :=
  getCurrentNoteIndexFrom t 0 ns

/-- Index of the first note whose interval contains `t`, if any
(proof-internal characterisation of the index scan). -/
def findMatchIdx (t : ℚ) : List Note → Option ℕ
  | [] => none
  | n :: ns =>
    if n.time ≤ t ∧ t < n.time + n.duration then some 0
    else (findMatchIdx t ns).map (· + 1)

lemma getCurrentNoteIndexFrom_eq (t : ℚ) (ns : List Note) (i : ℤ) :
    getCurrentNoteIndexFrom t i ns =
      (findMatchIdx t ns).elim (-1) (fun k => i + (k : ℤ)) := by
  induction ns generalizing i with
  | nil => rfl
  | cons n ns ih =>
    by_cases h : n.time ≤ t ∧ t < n.time + n.duration
    · simp [getCurrentNoteIndexFrom, findMatchIdx, h]
    · rw [getCurrentNoteIndexFrom, if_neg h, ih (i + 1), findMatchIdx, if_neg h]
      cases hfm : findMatchIdx t ns with
      | none => simp [hfm]
      | some k =>
        simp only [hfm, Option.map_some', Option.elim_some]
        push_cast
        ring

lemma getCurrentNoteIndexFrom_shift (t : ℚ) (ns : List Note) (i : ℤ) :
    getCurrentNoteIndexFrom t i ns =
      if getCurrentNoteIndexFrom t 0 ns = -1 then -1
      else getCurrentNoteIndexFrom t 0 ns + i := by
  rw [getCurrentNoteIndexFrom_eq t ns i, getCurrentNoteIndexFrom_eq t ns 0]
  cases hfm : findMatchIdx t ns with
  | none => simp
  | some k =>
    simp only [Option.elim_some]
    have hk : ¬ (0 + (k : ℤ) = -1) := by omega
    rw [if_neg hk]
    ring

/-- Claim C1: for every time value and every list of notes, the
active-note lookup `getCurrentNote` scans the list in order and returns
the symbolic name of the first note `n` satisfying
`n.time ≤ t < n.time + n.duration`, returning `none` when no note's
interval contains the time; and `getCurrentNoteIndex` performs the
identical scan and returns the index of that same first matching note,
or `-1` when there is no match. -/
theorem active_note_lookup_first_match (t : ℚ) (ns : List Note) :
    ((∀ n ∈ ns, ¬ (n.time ≤ t ∧ t < n.time + n.duration)) →
      getCurrentNote t ns = none ∧ getCurrentNoteIndex t ns = -1)
    ∧ (∀ i : ℕ, ∀ n : Note, ns[i]? = some n →
        (n.time ≤ t ∧ t < n.time + n.duration) →
        (∀ j : ℕ, j < i → ∀ m : Note, ns[j]? = some m →
          ¬ (m.time ≤ t ∧ t < m.time + m.duration)) →
        getCurrentNote t ns = some n.note ∧ getCurrentNoteIndex t ns = (i : ℤ)) := by
  induction ns with
  | nil =>
    refine ⟨fun _ => ⟨rfl, rfl⟩, ?_⟩
    intro i n hget
    simp at hget
  | cons hd tl ih =>
    constructor
    · intro hall
      have hhd : ¬ (hd.time ≤ t ∧ t < hd.time + hd.duration) := hall hd (by simp)
      have htl := (ih.1 (fun n hn => hall n (List.mem_cons_of_mem hd hn)))
      refine ⟨?_, ?_⟩
      · rw [getCurrentNote, if_neg hhd]; exact htl.1
      · rw [getCurrentNoteIndex, getCurrentNoteIndexFrom, if_neg hhd,
          getCurrentNoteIndexFrom_shift]
        have : getCurrentNoteIndexFrom t 0 tl = -1 := htl.2
        simp [this]
    · intro i n hget hmatch hfirst
      cases i with
      | zero =>
        simp only [List.getElem?_cons_zero, Option.some.injEq] at hget
        subst hget
        constructor
        · rw [getCurrentNote, if_pos hmatch]
        · rw [getCurrentNoteIndex, getCurrentNoteIndexFrom, if_pos hmatch]; rfl
      | succ k =>
        have hhd : ¬ (hd.time ≤ t ∧ t < hd.time + hd.duration) := by
          have := hfirst 0 (Nat.succ_pos k) hd (by simp)
          exact this
        simp only [List.getElem?_cons_succ] at hget
        have hfirst' : ∀ j : ℕ, j < k → ∀ m : Note, tl[j]? = some m →
            ¬ (m.time ≤ t ∧ t < m.time + m.duration) := by
          intro j hj m hm
          have := hfirst (j + 1) (by omega) m (by simpa using hm)
          exact this
        have htl := ih.2 k n hget hmatch hfirst'
        refine ⟨?_, ?_⟩
        · rw [getCurrentNote, if_neg hhd]; exact htl.1
        · rw [getCurrentNoteIndex, getCurrentNoteIndexFrom, if_neg hhd,
            getCurrentNoteIndexFrom_shift]
          have h2 : getCurrentNoteIndexFrom t 0 tl = (k : ℤ) := htl.2
          have h3 : ¬ getCurrentNoteIndexFrom t 0 tl = -1 := by
            rw [h2]; omega
          simp only [h3, if_false, h2]
          push_cast
          ring

/-- Concrete instance of the scenario from the spec: notes
`[{C1,0,1},{D1,1,1},{E1,2,1}]` at time 3/2 resolve to note `D1` at
index 1. -/
theorem active_note_lookup_first_match_witness :
    getCurrentNote (3/2) [⟨"C1", 1, 0⟩, ⟨"D1", 1, 1⟩, ⟨"E1", 1, 2⟩] = some "D1" ∧
    getCurrentNoteIndex (3/2) [⟨"C1", 1, 0⟩, ⟨"D1", 1, 1⟩, ⟨"E1", 1, 2⟩] = 1 :=
  (active_note_lookup_first_match (3/2)
      [⟨"C1", 1, 0⟩, ⟨"D1", 1, 1⟩, ⟨"E1", 1, 2⟩]).2
    1 ⟨"D1", 1, 1⟩ (by decide)
    (by constructor <;> norm_num)
    (by
      intro j hj m hm
      interval_cases j
      · simp only [List.getElem?_cons_zero, Option.some.injEq] at hm
        subst hm
        intro hc
        norm_num at hc)

/-- The `Song` interface of App.tsx:
`{ title; notes; tempo; timeSignature }`. -/
structure Song where
  title : String
  notes : List Note
  tempo : ℚ
  timeSignature : ℚ × ℚ
deriving DecidableEq, Repr

/-- The duration recomputation used by `saveSong` and `handleFileUpload`:
`notes.reduce((total, note) => Math.max(total, note.time + note.duration), 0)`. -/
def totalDurationOf (notes : List Note) : ℚ :=
  notes.foldl (fun total n => max total (noteEnd n)) 0

/-- The component state of App.tsx relevant to playback and editing:
`song`, `currentTime`, `isPlaying`, `duration`, `currentlyPlayingNote`,
`editorMode`, `editingSong`. -/
structure AppState where
  song : Song
  currentTime : ℚ
  isPlaying : Bool
  duration : ℚ
  currentlyPlayingNote : Option String
  editorMode : Bool
  editingSong : Option Song
deriving DecidableEq, Repr

/-- The initial song hard-coded in the `useState` call of App.tsx. -/
def initialSong : Song :=
  { title := "Alto Sax Basic Notes"
    notes := [⟨"C1", 1, 0⟩, ⟨"B1", 1, 1⟩, ⟨"D1", 1, 2⟩, ⟨"E1", 1, 3⟩,
              ⟨"F1", 1, 4⟩, ⟨"G1", 1, 5⟩, ⟨"B2", 1, 6⟩, ⟨"C2", 1, 7⟩,
              ⟨"D2", 1, 8⟩, ⟨"B2", 1, 9⟩]
    tempo := 60
    timeSignature := (4, 4) }

/-- The initial component state: `currentTime 0`, not playing,
`duration 10`, no sounding note, editor closed. -/
def initialState : AppState :=
  { song := initialSong
    currentTime := 0
    isPlaying := false
    duration := 10
    currentlyPlayingNote := none
    editorMode := false
    editingSong := none }

/-- One frame of the `animate` callback (App.tsx lines 135-155):
`newTime = min(prev + delta, duration)`; if `newTime >= duration` the
playing flag is cleared and `currentTime` becomes exactly `duration`,
otherwise `currentTime` becomes `newTime`. -/
def animateStep (delta : ℚ) (s : AppState) : AppState :=
  if s.duration ≤ min (s.currentTime + delta) s.duration then
    { s with currentTime := s.duration, isPlaying := false }
  else
    { s with currentTime := min (s.currentTime + delta) s.duration }

/-- `handleProgressBarClick` (App.tsx lines 280-285): with click offset
`x` over bar width `w`, sets `currentTime = (x / w) * duration` — with
no clamping. -/
def handleProgressBarClick (x w : ℚ) (s : AppState) : AppState :=
  { s with currentTime := x / w * s.duration }

/-- `togglePlayback`: flips the playing flag. -/
def togglePlayback (s : AppState) : AppState :=
  { s with isPlaying := !s.isPlaying }

/-- `resetPlayback` (App.tsx lines 218-226): `currentTime := 0`, stop,
release any sounding note. -/
def resetPlayback (s : AppState) : AppState :=
  { s with currentTime := 0, isPlaying := false, currentlyPlayingNote := none }

/-- `setEditingSong`, as used when opening the editor or editing. -/
def setEditingSong (e : Option Song) (s : AppState) : AppState :=
  { s with editingSong := e }

/-- `saveSong` (App.tsx lines 519-531): if an edited song exists,
install it as the live song, recompute `duration`, leave editor mode and
reset playback; otherwise do nothing. -/
def saveSong (s : AppState) : AppState :=
  match s.editingSong with
  | none => s
  | some e =>
    { s with song := e
             duration := totalDurationOf e.notes
             editorMode := false
             currentTime := 0
             isPlaying := false
             currentlyPlayingNote := none }

/-- States reachable from the initial state under the app's operations.
Frame advances use a nonnegative measured delta (timestamps are
monotone); progress-bar clicks land inside the bar, so the click offset
satisfies `0 ≤ x ≤ w` with `0 < w`. -/
inductive Reachable : AppState → Prop
  | init : Reachable initialState
  | frame (s : AppState) (delta : ℚ) : Reachable s → s.isPlaying = true →
      0 ≤ delta → Reachable (animateStep delta s)
  | seek (s : AppState) (x w : ℚ) : Reachable s → 0 ≤ x → x ≤ w → 0 < w →
      Reachable (handleProgressBarClick x w s)
  | toggle (s : AppState) : Reachable s → Reachable (togglePlayback s)
  | reset (s : AppState) : Reachable s → Reachable (resetPlayback s)
  | edit (s : AppState) (e : Option Song) : Reachable s →
      Reachable (setEditingSong e s)
  | save (s : AppState) : Reachable s → Reachable (saveSong s)

lemma le_foldl_maxEnd (ns : List Note) (a : ℚ) :
    a ≤ ns.foldl (fun total n => max total (noteEnd n)) a := by
  induction ns generalizing a with
  | nil => exact le_refl a
  | cons n ns ih => exact le_trans (le_max_left a (noteEnd n)) (ih _)

lemma totalDurationOf_nonneg (ns : List Note) : 0 ≤ totalDurationOf ns :=
  le_foldl_maxEnd ns 0

/-- Claim C2 counterexample: seeking with click offset 20 on a bar of
width 10 (fraction 2 > 1) over total duration 10 yields `currentTime`
20, not the clamped value 10 the claim asserts. -/
theorem seek_claim_counterexample :
    (handleProgressBarClick 20 10 initialState).currentTime = 20 ∧
    (handleProgressBarClick 20 10 initialState).currentTime ≠
      (handleProgressBarClick 20 10 initialState).duration := by
  constructor <;> norm_num [handleProgressBarClick, initialState]

/-- Claim C2 (amended): a seek with fraction `f = x / w` always sets
`currentTime` to `f * duration`, with no clamping: for `f ∈ [0, 1]` the
result lies in `[0, duration]`, but for `f > 1` it exceeds `duration`
and for `f < 0` it is negative. -/
theorem seek_sets_fraction_times_duration (s : AppState) (f w : ℚ)
    (hw : w ≠ 0) :
    (handleProgressBarClick (f * w) w s).currentTime = f * s.duration
    ∧ (0 ≤ f → f ≤ 1 → 0 ≤ s.duration →
        0 ≤ f * s.duration ∧ f * s.duration ≤ s.duration)
    ∧ (1 < f → 0 < s.duration → s.duration < f * s.duration)
    ∧ (f < 0 → 0 < s.duration → f * s.duration < 0) := by
  refine ⟨?_, ?_, ?_, ?_⟩
  · show f * w / w * s.duration = f * s.duration
    rw [mul_div_assoc, div_self hw, mul_one]
  · intro hf0 hf1 hd
    exact ⟨mul_nonneg hf0 hd, mul_le_of_le_one_left hd hf1⟩
  · intro hf hd
    exact lt_mul_left hd hf
  · intro hf hd
    exact mul_neg_of_neg_of_pos hf hd

/-- Witness for C2: seeking with fraction 1/2 (offset 2 on width 4)
over the initial duration 10 yields `currentTime = 5`. -/
theorem seek_sets_fraction_times_duration_witness :
    (handleProgressBarClick (1/2 * 4) 4 initialState).currentTime =
      1/2 * initialState.duration :=
  (seek_sets_fraction_times_duration initialState (1/2) 4 (by norm_num)).1

/-- Claim C3: `0 ≤ currentTime ≤ totalDuration` holds in every
reachable state, hence after frame advances, in-bar seeks, resets and
song commits. -/
theorem playback_time_within_duration (s : AppState) (h : Reachable s) :
    0 ≤ s.currentTime ∧ s.currentTime ≤ s.duration := by
  induction h with
  | init => norm_num [initialState]
  | frame s delta hr hp hd ih =>
    unfold animateStep
    by_cases hend : s.duration ≤ min (s.currentTime + delta) s.duration
    · rw [if_pos hend]
      exact ⟨le_trans ih.1 ih.2, le_refl _⟩
    · rw [if_neg hend]
      refine ⟨le_min (by linarith [ih.1]) (le_trans ih.1 ih.2), min_le_right _ _⟩
  | seek s x w hr hx hxw hw ih =>
    have hd : 0 ≤ s.duration := le_trans ih.1 ih.2
    have hf0 : 0 ≤ x / w := div_nonneg hx (le_of_lt hw)
    have hf1 : x / w ≤ 1 := (div_le_one hw).mpr hxw
    exact ⟨mul_nonneg hf0 hd, mul_le_of_le_one_left hd hf1⟩
  | toggle s hr ih => exact ih
  | reset s hr ih => exact ⟨le_refl 0, le_trans ih.1 ih.2⟩
  | edit s e hr ih => exact ih
  | save s hr ih =>
    unfold saveSong
    cases he : s.editingSong with
    | none => exact ih
    | some e => exact ⟨le_refl 0, totalDurationOf_nonneg e.notes⟩

/-- Witness for C3: the state reached by an in-bar seek (offset 3,
width 4) from the initial state satisfies the invariant. -/
theorem playback_time_within_duration_witness :
    0 ≤ (handleProgressBarClick 3 4 initialState).currentTime ∧
    (handleProgressBarClick 3 4 initialState).currentTime ≤
      (handleProgressBarClick 3 4 initialState).duration :=
  playback_time_within_duration _
    (Reachable.seek _ 3 4 Reachable.init (by norm_num) (by norm_num) (by norm_num))

/-- Claim C4: while playing, one frame advances `currentTime` by the
measured inter-frame delta while it stays below `duration`; once
`currentTime + delta` reaches `duration`, the playing flag becomes
`false` and `currentTime` is held at exactly `duration`; the clock
never exceeds `duration`. -/
theorem animate_advances_and_stops_at_end (s : AppState) (delta : ℚ)
    (hd : 0 ≤ delta) (hle : s.currentTime ≤ s.duration)
    (hp : s.isPlaying = true) :
    (s.currentTime + delta < s.duration →
      (animateStep delta s).currentTime = s.currentTime + delta ∧
      (animateStep delta s).isPlaying = true)
    ∧ (s.duration ≤ s.currentTime + delta →
        (animateStep delta s).currentTime = s.duration ∧
        (animateStep delta s).isPlaying = false)
    ∧ (animateStep delta s).currentTime ≤ s.duration := by
  unfold animateStep
  by_cases hend : s.duration ≤ min (s.currentTime + delta) s.duration
  · rw [if_pos hend]
    have hge : s.duration ≤ s.currentTime + delta := by
      rcases le_or_lt (s.currentTime + delta) s.duration with hc | hc
      · rwa [min_eq_left hc] at hend
      · exact le_of_lt hc
    exact ⟨fun hlt => absurd hge (not_le.mpr hlt), fun _ => ⟨rfl, rfl⟩, le_refl _⟩
  · rw [if_neg hend]
    have hlt : min (s.currentTime + delta) s.duration < s.duration := not_le.mp hend
    have hmin : min (s.currentTime + delta) s.duration = s.currentTime + delta := by
      rcases le_or_lt (s.currentTime + delta) s.duration with hc | hc
      · exact min_eq_left hc
      · rw [min_eq_right (le_of_lt hc)] at hlt
        exact absurd hlt (lt_irrefl _)
    refine ⟨fun _ => ⟨hmin, hp⟩, fun hge => ?_, min_le_right _ _⟩
    rw [hmin] at hlt
    exact absurd hge (not_le.mpr hlt)

/-- Witness for C4: from the playing initial state (time 0, duration
10), a frame with delta 2 advances the clock to 2 and keeps playing. -/
theorem animate_advances_and_stops_at_end_witness :
    (animateStep 2 (togglePlayback initialState)).currentTime =
      (togglePlayback initialState).currentTime + 2 ∧
    (animateStep 2 (togglePlayback initialState)).isPlaying = true :=
  (animate_advances_and_stops_at_end (togglePlayback initialState) 2
      (by norm_num)
      (by norm_num [togglePlayback, initialState])
      (by rfl)).1
    (by norm_num [togglePlayback, initialState])

/-- The finger-position table defined inside the app component
(App.tsx lines 27-50), as an ordered association list. -/
def appFingerPositions : List (String × List Bool) :=
  [("Bb1", [false, true, true, true, true, true, true]),
   ("B1", [false, true, false, false, false, false, false]),
   ("C1", [false, false, true, false, false, false, false]),
   ("C#1", [false, false, false, true, false, false, false]),
   ("D1", [false, true, true, true, true, true, true]),
   ("E1", [false, true, true, true, true, true, false]),
   ("F1", [false, true, true, true, true, false, false]),
   ("F#1", [false, true, true, true, false, true, false]),
   ("G1", [true, true, true, false, false, false, false]),
   ("A1", [false, true, true, false, false, false, false]),
   ("B2", [true, true, false, false, false, false, false]),
   ("C2", [true, false, true, false, false, false, false]),
   ("C#2", [true, false, true, false, false, false, false]),
   ("D2", [true, true, true, true, false, true, true]),
   ("E2", [true, true, true, true, true, true, false]),
   ("F2", [true, true, true, true, true, false, false]),
   ("F#2", [true, true, true, true, false, true, false]),
   ("G2", [true, true, true, true, false, false, false]),
   ("A2", [true, true, true, false, false, false, false])]

/-- The standalone exported finger-position table
(fingerPositions.ts lines 9-32). -/
def tsFingerPositions : List (String × List Bool) :=
  [("Bb1", [false, true, true, true, true, true, true]),
   ("B1", [false, true, false, false, false, false, false]),
   ("C1", [false, false, true, false, false, false, false]),
   ("C#1", [false, false, false, true, false, false, false]),
   ("D1", [false, true, true, true, true, true, true]),
   ("E1", [false, true, true, true, true, true, false]),
   ("F1", [false, true, true, true, true, false, false]),
   ("F#1", [false, true, true, true, false, true, false]),
   ("G1", [false, true, true, true, false, false, false]),
   ("A1", [false, true, true, false, false, false, false]),
   ("B2", [true, true, false, false, false, false, false]),
   ("C2", [true, false, true, false, false, false, false]),
   ("C#2", [true, false, false, true, false, false, false]),
   ("D2", [true, true, true, true, true, true, true]),
   ("E2", [true, true, true, true, true, true, false]),
   ("F2", [true, true, true, true, true, false, false]),
   ("F#2", [true, true, true, true, false, true, false]),
   ("G2", [true, true, true, true, false, false, false]),
   ("A2", [true, true, true, false, false, false, false])]

/-- JS property access `table[key]`: `some` vector on a hit, `none`
(undefined) on a miss. -/
def lookupFinger (table : List (String × List Bool)) (k : String) :
    Option (List Bool) :=
  (table.find? (fun p => p.1 == k)).map Prod.snd

/-- The lookup fallback `fingerPositions[note.note] || []` of App.tsx
(lines 785-788): on a miss the empty array stands in. -/
def fingeringOf (k : String) : List Bool :=
  (lookupFinger appFingerPositions k).getD []

/-- Claim C5 counterexample: every table entry has width 7, but
`fingeringOf "ZZ9"` has length 0, not the table's fixed per-entry
width 7 as the claim asserts. -/
theorem fingering_miss_counterexample :
    (∀ p ∈ appFingerPositions, p.2.length = 7) ∧
    (fingeringOf "ZZ9").length ≠ 7 := by
  decide

/-- Claim C5 (amended): for every pitch name absent from the app's
finger table, the lookup falls back to the empty vector (length 0, not
the table's per-entry width 7); indexed access into that fallback
yields `false` at every position, so it behaves as all-open. -/
theorem fingering_miss_empty_all_open (k : String)
    (h : lookupFinger appFingerPositions k = none) :
    fingeringOf k = [] ∧ ∀ i : ℕ, (fingeringOf k).getD i false = false := by
  have hempty : fingeringOf k = [] := by
    unfold fingeringOf
    rw [h]
    rfl
  refine ⟨hempty, fun i => ?_⟩
  rw [hempty]
  cases i <;> rfl

/-- Witness for C5 (amended): `"ZZ9"` misses the table and its
fingering is the empty, all-open-under-access vector. -/
theorem fingering_miss_empty_all_open_witness :
    fingeringOf "ZZ9" = [] ∧
    ∀ i : ℕ, (fingeringOf "ZZ9").getD i false = false :=
  fingering_miss_empty_all_open "ZZ9" (by decide)

/-- Claim C10: the in-component table and the standalone exported table
have the same key list, and for every shared key their boolean vectors
agree exactly when the key is not one of `G1`, `C#2`, `D2` — at those
three keys, and only those, the tables disagree. -/
theorem finger_tables_agree_except_three :
    appFingerPositions.map Prod.fst = tsFingerPositions.map Prod.fst
    ∧ ∀ k ∈ appFingerPositions.map Prod.fst,
        (lookupFinger appFingerPositions k = lookupFinger tsFingerPositions k ↔
          k ∉ (["G1", "C#2", "D2"] : List String)) := by
  decide

/-- Witness for C10: at the shared key `G1` the two tables disagree. -/
theorem finger_tables_agree_except_three_witness :
    lookupFinger appFingerPositions "G1" = lookupFinger tsFingerPositions "G1" ↔
      "G1" ∉ (["G1", "C#2", "D2"] : List String) :=
  finger_tables_agree_except_three.2 "G1" (by decide)

/-- Start time assigned by `addNote` (App.tsx lines 468-484):
`notes.length > 0 ? Math.max(...notes.map(n => n.time + n.duration)) : 0`. -/
def maxEndTime (notes : List Note) : ℚ :=
  match notes.map noteEnd with
  | [] => 0
  | x :: xs => xs.foldl max x

/-- `addNote`: appends a note with default pitch `"C1"`, duration 1 and
start time `maxEndTime notes`. -/
def addNote (notes : List Note) : List Note :=
  notes ++ [{ note := "C1", duration := 1, time := maxEndTime notes }]

lemma le_foldl_max (l : List ℚ) (a : ℚ) : a ≤ l.foldl max a := by
  induction l generalizing a with
  | nil => exact le_refl a
  | cons y l ih => exact le_trans (le_max_left a y) (ih _)

lemma mem_le_foldl_max (l : List ℚ) (x : ℚ) (hx : x ∈ l) :
    ∀ a, x ≤ l.foldl max a := by
  induction l with
  | nil => exact absurd hx (List.not_mem_nil x)
  | cons y l ih =>
    intro a
    simp only [List.foldl_cons]
    rcases List.mem_cons.mp hx with rfl | hmem
    · exact le_trans (le_max_right a x) (le_foldl_max l _)
    · exact ih hmem (max a y)

lemma foldl_max_eq_init_or_mem (l : List ℚ) (a : ℚ) :
    l.foldl max a = a ∨ l.foldl max a ∈ l := by
  induction l generalizing a with
  | nil => left; rfl
  | cons y l ih =>
    simp only [List.foldl_cons]
    rcases ih (max a y) with heq | hmem
    · rcases max_choice a y with hc | hc
      · left; rw [heq, hc]
      · right; rw [heq, hc]; exact List.mem_cons_self y l
    · right; exact List.mem_cons_of_mem y hmem

lemma maxEndTime_cons (m : Note) (ms : List Note) :
    maxEndTime (m :: ms) = (ms.map noteEnd).foldl max (noteEnd m) := rfl

/-- Claim C7: `addNote` appends exactly one note with pitch `"C1"` and
duration 1 whose start time is the maximum of `time + duration` over
the existing notes (0 when the list is empty), so the new note's
interval overlaps no existing note's interval; on
`[{t:0,d:1},{t:1,d:1}]` the new start time is 2. -/
theorem add_note_appends_at_max_extent (notes : List Note) :
    addNote notes = notes ++ [⟨"C1", 1, maxEndTime notes⟩]
    ∧ (notes = [] → maxEndTime notes = 0)
    ∧ (notes ≠ [] →
        (∀ n ∈ notes, noteEnd n ≤ maxEndTime notes) ∧
        ∃ n ∈ notes, maxEndTime notes = noteEnd n)
    ∧ (∀ n ∈ notes, ∀ x : ℚ,
        ¬ ((n.time ≤ x ∧ x < noteEnd n) ∧
           (maxEndTime notes ≤ x ∧ x < maxEndTime notes + 1)))
    ∧ maxEndTime [⟨"C1", 1, 0⟩, ⟨"D1", 1, 1⟩] = 2 := by
  have hub : ∀ n ∈ notes, noteEnd n ≤ maxEndTime notes := by
    intro n hn
    cases hnotes : notes with
    | nil => rw [hnotes] at hn; cases hn
    | cons m ms =>
      rw [hnotes] at hn
      rw [maxEndTime_cons]
      rcases List.mem_cons.mp hn with rfl | hmem
      · exact le_foldl_max _ _
      · exact mem_le_foldl_max _ _ (List.mem_map_of_mem noteEnd hmem) _
  refine ⟨rfl, ?_, ?_, ?_, ?_⟩
  · intro hnil; rw [hnil]; rfl
  · intro hne
    refine ⟨hub, ?_⟩
    cases hnotes : notes with
    | nil => exact absurd hnotes hne
    | cons m ms =>
      rw [maxEndTime_cons]
      rcases foldl_max_eq_init_or_mem ((ms.map noteEnd)) (noteEnd m) with heq | hmem
      · exact ⟨m, List.mem_cons_self m ms, heq⟩
      · rcases List.mem_map.mp hmem with ⟨n, hn, hend⟩
        exact ⟨n, List.mem_cons_of_mem m hn, hend.symm⟩
  · intro n hn x ⟨⟨_, hlt⟩, ⟨hge, _⟩⟩
    have := hub n hn
    linarith
  · norm_num [maxEndTime, noteEnd]

/-- Witness for C7: on the two-note list of the claim's example, the
maximal extent 2 bounds every note end and is attained. -/
theorem add_note_appends_at_max_extent_witness :
    (∀ n ∈ [(⟨"C1", 1, 0⟩ : Note), ⟨"D1", 1, 1⟩],
      noteEnd n ≤ maxEndTime [⟨"C1", 1, 0⟩, ⟨"D1", 1, 1⟩]) ∧
    ∃ n ∈ [(⟨"C1", 1, 0⟩ : Note), ⟨"D1", 1, 1⟩],
      maxEndTime [⟨"C1", 1, 0⟩, ⟨"D1", 1, 1⟩] = noteEnd n :=
  (add_note_appends_at_max_extent [⟨"C1", 1, 0⟩, ⟨"D1", 1, 1⟩]).2.2.1
    (by decide)

/-- A song used to instantiate the editor round-trip concretely. -/
def demoSong : Song :=
  { title := "Demo", notes := [⟨"C1", 1, 0⟩, ⟨"D1", 1, 1⟩],
    tempo := 60, timeSignature := (4, 4) }

lemma totalDurationOf_eq_foldl (ns : List Note) :
    totalDurationOf ns = (ns.map noteEnd).foldl max 0 := by
  unfold totalDurationOf
  rw [List.foldl_map]

/-- Claim C8: committing an edited song (`saveSong`) installs it as the
live song unchanged (round-trip), sets the total duration to the
maximum of `time + duration` over its notes (for a song with at least
one note, all of them with nonnegative start and positive duration, as
the data model requires), and resets playback: `currentTime = 0`, not
playing, no sounding note. -/
theorem save_song_roundtrip (s : AppState) (e : Song)
    (he : s.editingSong = some e) (hne : e.notes ≠ [])
    (hvalid : ∀ n ∈ e.notes, 0 ≤ n.time ∧ 0 < n.duration) :
    (saveSong s).song = e
    ∧ (∀ n ∈ e.notes, noteEnd n ≤ (saveSong s).duration)
    ∧ (∃ n ∈ e.notes, (saveSong s).duration = noteEnd n)
    ∧ (saveSong s).currentTime = 0
    ∧ (saveSong s).isPlaying = false
    ∧ (saveSong s).currentlyPlayingNote = none := by
  have hsave : saveSong s =
      { s with song := e, duration := totalDurationOf e.notes,
               editorMode := false, currentTime := 0, isPlaying := false,
               currentlyPlayingNote := none } := by
    unfold saveSong
    rw [he]
  rw [hsave]
  refine ⟨rfl, ?_, ?_, rfl, rfl, rfl⟩
  · intro n hn
    show noteEnd n ≤ totalDurationOf e.notes
    rw [totalDurationOf_eq_foldl]
    exact mem_le_foldl_max _ _ (List.mem_map_of_mem noteEnd hn) _
  · show ∃ n ∈ e.notes, totalDurationOf e.notes = noteEnd n
    rw [totalDurationOf_eq_foldl]
    rcases foldl_max_eq_init_or_mem (e.notes.map noteEnd) 0 with heq | hmem
    · cases hns : e.notes with
      | nil => exact absurd hns hne
      | cons m ms =>
        have hm : m ∈ e.notes := by rw [hns]; exact List.mem_cons_self m ms
        have hpos : 0 < noteEnd m := by
          have := hvalid m hm
          unfold noteEnd
          linarith [this.1, this.2]
        have hle : noteEnd m ≤ (e.notes.map noteEnd).foldl max 0 :=
          mem_le_foldl_max _ _ (List.mem_map_of_mem noteEnd hm) _
        rw [heq] at hle
        linarith
    · rcases List.mem_map.mp hmem with ⟨n, hn, hend⟩
      exact ⟨n, hn, hend.symm⟩

/-- Witness for C8: committing `demoSong` from the editor installs it
unchanged as the live song. -/
theorem save_song_roundtrip_witness :
    (saveSong (setEditingSong (some demoSong) initialState)).song = demoSong :=
  (save_song_roundtrip (setEditingSong (some demoSong) initialState) demoSong
      rfl (by decide) (by decide)).1

/-- The three field names of the `Note` interface (`keyof Note`). -/
inductive NoteField where
  | note
  | duration
  | time
deriving DecidableEq, Repr

/-- A JS field value: `string | number`. -/
inductive JsVal where
  | str (s : String)
  | num (q : ℚ)
deriving DecidableEq, Repr

/-- A JS note object whose fields may each be absent, as produced by
spreading `undefined` (`{...undefined, [prop]: value}`). -/
structure JsNote where
  note : Option JsVal
  duration : Option JsVal
  time : Option JsVal
deriving DecidableEq, Repr

/-- Replace one field of a JS note object. -/
def JsNote.setField (n : JsNote) : NoteField → JsVal → JsNote
  | NoteField.note, v => { n with note := some v }
  | NoteField.duration, v => { n with duration := some v }
  | NoteField.time, v => { n with time := some v }

/-- The object with no fields, i.e. `{...undefined}`. -/
def emptyJsNote : JsNote := ⟨none, none, none⟩

/-- `{...old, [property]: value}` where `old` may be `undefined`. -/
def spreadSet (o : Option JsNote) (f : NoteField) (v : JsVal) : JsNote :=
  (o.getD emptyJsNote).setField f v

/-- JS array read `arr[i]`: `undefined` for a negative or past-the-end
index or a hole. -/
def jsGet (xs : List (Option JsNote)) (i : ℤ) : Option JsNote :=
  if 0 ≤ i then xs.getD i.toNat none else none

/-- JS array write `arr[i] = v`: an in-range index replaces the element;
an index past the end grows the array, filling with holes; a negative
index sets a non-index own property, leaving the array elements
unchanged. -/
def jsArraySet (xs : List (Option JsNote)) (i : ℤ) (v : Option JsNote) :
    List (Option JsNote) :=
  if i < 0 then xs
  else if i.toNat < xs.length then xs.set i.toNat v
  else xs ++ List.replicate (i.toNat - xs.length) none ++ [v]

/-- `updateNote` (App.tsx lines 487-504):
`updatedNotes[index] = {...updatedNotes[index], [property]: value}` on a
copy of the note list. -/
def updateNote (notes : List (Option JsNote)) (i : ℤ) (f : NoteField)
    (v : JsVal) : List (Option JsNote) :=
  jsArraySet notes i (some (spreadSet (jsGet notes i) f v))

/-- A fully populated JS note `{note: "C1", duration: 1, time: 0}`. -/
def cNote : JsNote :=
  ⟨some (JsVal.str "C1"), some (JsVal.num 1), some (JsVal.num 0)⟩

/-- Claim C6 counterexample: on a one-note list, `updateNote` at the
out-of-bounds index 2 is not a no-op — the resulting array has three
entries. -/
theorem update_note_oob_counterexample :
    updateNote [some cNote] 2 NoteField.duration (JsVal.num 5) ≠ [some cNote] ∧
    (updateNote [some cNote] 2 NoteField.duration (JsVal.num 5)).length = 3 := by
  decide

/-- Claim C6 (amended): `updateNote` at a negative index leaves the note
list unchanged, but at an index at or past the end it is not a no-op:
the list grows to `index + 1` entries, padded with holes, ending in an
object holding only the updated field; in-bounds updates preserve the
length. -/
theorem update_note_out_of_range (notes : List (Option JsNote)) (i : ℤ)
    (f : NoteField) (v : JsVal) :
    (i < 0 → updateNote notes i f v = notes)
    ∧ ((notes.length : ℤ) ≤ i →
        (updateNote notes i f v).length = i.toNat + 1
        ∧ (updateNote notes i f v).getLast? = some (some (spreadSet none f v)))
    ∧ (0 ≤ i → i < (notes.length : ℤ) →
        (updateNote notes i f v).length = notes.length) := by
  refine ⟨?_, ?_, ?_⟩
  · intro hneg
    unfold updateNote jsArraySet
    rw [if_pos hneg]
  · intro hge
    have h0 : 0 ≤ i := le_trans (Int.ofNat_nonneg notes.length) hge
    have hnlt : ¬ i < 0 := not_lt.mpr h0
    have hlen : notes.length ≤ i.toNat := by omega
    have hget : jsGet notes i = none := by
      unfold jsGet
      rw [if_pos h0, List.getD_eq_default]
      exact hlen
    have hnlt2 : ¬ i.toNat < notes.length := not_lt.mpr hlen
    unfold updateNote jsArraySet
    rw [hget, if_neg hnlt, if_neg hnlt2]
    constructor
    · simp only [List.length_append, List.length_replicate, List.length_cons,
        List.length_nil]
      omega
    · exact List.getLast?_concat _
  · intro h0 hlt
    have hnlt : ¬ i < 0 := not_lt.mpr h0
    have htn : i.toNat < notes.length := by omega
    unfold updateNote jsArraySet
    rw [if_neg hnlt, if_pos htn, List.length_set]

/-- Witness for C6 (amended): updating index -1 of a one-note list
leaves it unchanged. -/
theorem update_note_out_of_range_witness :
    updateNote [some cNote] (-1) NoteField.time (JsVal.num 3) = [some cNote] :=
  (update_note_out_of_range [some cNote] (-1) NoteField.time (JsVal.num 3)).1
    (by decide)

/-- The `ParsedNote` interface of App.tsx: `{note, octave}`. -/
structure ParsedNote where
  note : String
  octave : ℕ
deriving DecidableEq, Repr

/-- The character class `[A-G]`. -/
def isNoteLetter (c : Char) : Bool := decide ('A' ≤ c ∧ c ≤ 'G')

/-- The character class `[#b]`. -/
def isAccidental (c : Char) : Bool := c == '#' || c == 'b'

/-- Numeric value of a digit character, as `parseInt` on one digit. -/
def digitVal (c : Char) : ℕ := c.toNat - '0'.toNat

/-- Matching `([A-G][#b]?)(\d)` at a fixed start position, greedy in the
optional accidental with backtracking, as the JS regex engine does:
captures (letter with optional accidental, digit value). -/
def matchPitchAt : List Char → Option (String × ℕ)
  | c :: a :: d :: _ =>
    if isNoteLetter c = true ∧ isAccidental a = true ∧ d.isDigit = true then
      some (String.mk [c, a], digitVal d)
    else if isNoteLetter c = true ∧ a.isDigit = true then
      some (String.mk [c], digitVal a)
    else none
  | [c, a] =>
    if isNoteLetter c = true ∧ a.isDigit = true then
      some (String.mk [c], digitVal a)
    else none
  | _ => none

/-- `String.prototype.match` with an unanchored regex: try each start
position left to right and return the first match. -/
def findPitchMatch : List Char → Option (String × ℕ)
  | [] => none
  | c :: cs =>
    match matchPitchAt (c :: cs) with
    | some r => some r
    | none => findPitchMatch cs

/-- `parseNote` (App.tsx lines 341-350): on a regex match, letter part
and digit octave; otherwise `{note: noteString, octave: 1}`. -/
def parseNote (s : String) : ParsedNote :=
  match findPitchMatch s.data with
  | some (l, o) => { note := l, octave := o }
  | none => { note := s, octave := 1 }

/-- A character list that the pattern `[A-G][#b]?\d` matches exactly. -/
def IsPitchToken (tok : List Char) : Prop :=
  (∃ c d, tok = [c, d] ∧ isNoteLetter c = true ∧ d.isDigit = true) ∨
  (∃ c a d, tok = [c, a, d] ∧ isNoteLetter c = true ∧ isAccidental a = true ∧
    d.isDigit = true)

/-- The pattern `[A-G][#b]?\d` occurs somewhere in the string. -/
def ContainsPitchToken (s : String) : Prop :=
  ∃ pre tok suf, s.data = pre ++ tok ++ suf ∧ IsPitchToken tok

lemma matchPitchAt_some_token (l : List Char) (r : String × ℕ)
    (h : matchPitchAt l = some r) :
    ∃ tok suf, l = tok ++ suf ∧ IsPitchToken tok := by
  match l with
  | [] => exact absurd h (by simp [matchPitchAt])
  | [c] => exact absurd h (by simp [matchPitchAt])
  | [c, a] =>
    rw [matchPitchAt] at h
    by_cases hc : isNoteLetter c = true ∧ a.isDigit = true
    · exact ⟨[c, a], [], by simp, Or.inl ⟨c, a, rfl, hc.1, hc.2⟩⟩
    · rw [if_neg hc] at h
      exact absurd h (by simp)
  | c :: a :: d :: rest =>
    rw [matchPitchAt] at h
    by_cases h1 : isNoteLetter c = true ∧ isAccidental a = true ∧ d.isDigit = true
    · exact ⟨[c, a, d], rest, rfl, Or.inr ⟨c, a, d, rfl, h1.1, h1.2.1, h1.2.2⟩⟩
    · rw [if_neg h1] at h
      by_cases h2 : isNoteLetter c = true ∧ a.isDigit = true
      · exact ⟨[c, a], d :: rest, rfl, Or.inl ⟨c, a, rfl, h2.1, h2.2⟩⟩
      · rw [if_neg h2] at h
        exact absurd h (by simp)

lemma findPitchMatch_some_token (l : List Char) (r : String × ℕ)
    (h : findPitchMatch l = some r) :
    ∃ pre tok suf, l = pre ++ tok ++ suf ∧ IsPitchToken tok := by
  induction l with
  | nil => exact absurd h (by simp [findPitchMatch])
  | cons c cs ih =>
    rw [findPitchMatch] at h
    cases hm : matchPitchAt (c :: cs) with
    | some r₂ =>
      rcases matchPitchAt_some_token (c :: cs) r₂ hm with ⟨tok, suf, heq, htok⟩
      exact ⟨[], tok, suf, by simpa using heq, htok⟩
    | none =>
      rw [hm] at h
      rcases ih h with ⟨pre, tok, suf, heq, htok⟩
      exact ⟨c :: pre, tok, suf, by simp [heq], htok⟩

/-- Claim C9: `parseNote` totally decomposes a string of the form
letter (with optional accidental) followed by a single digit into that
letter part and octave digit, and on any input in which the pitch
pattern does not occur it returns `{note: the whole input, octave: 1}`
instead of failing. -/
theorem parse_note_pattern_or_fallback :
    (∀ c d : Char, isNoteLetter c = true → d.isDigit = true →
      parseNote (String.mk [c, d]) = ⟨String.mk [c], digitVal d⟩)
    ∧ (∀ c a d : Char, isNoteLetter c = true → isAccidental a = true →
        d.isDigit = true →
        parseNote (String.mk [c, a, d]) = ⟨String.mk [c, a], digitVal d⟩)
    ∧ (∀ s : String, ¬ ContainsPitchToken s → parseNote s = ⟨s, 1⟩) := by
  refine ⟨?_, ?_, ?_⟩
  · intro c d hc hd
    have hm : findPitchMatch [c, d] = some (String.mk [c], digitVal d) := by
      rw [findPitchMatch]
      have : matchPitchAt [c, d] = some (String.mk [c], digitVal d) := by
        rw [matchPitchAt, if_pos ⟨hc, hd⟩]
      rw [this]
    unfold parseNote
    rw [show (String.mk [c, d]).data = [c, d] from rfl, hm]
  · intro c a d hc ha hd
    have hm : findPitchMatch [c, a, d] = some (String.mk [c, a], digitVal d) := by
      rw [findPitchMatch]
      have : matchPitchAt [c, a, d] = some (String.mk [c, a], digitVal d) := by
        rw [matchPitchAt, if_pos ⟨hc, ha, hd⟩]
      rw [this]
    unfold parseNote
    rw [show (String.mk [c, a, d]).data = [c, a, d] from rfl, hm]
  · intro s hnc
    cases hfm : findPitchMatch s.data with
    | none =>
      unfold parseNote
      rw [hfm]
    | some r =>
      exact absurd (findPitchMatch_some_token s.data r hfm) hnc

/-- Witness for C9: `parseNote "F#2"` decomposes into letter part
`"F#"` and octave 2. -/
theorem parse_note_pattern_or_fallback_witness :
    parseNote (String.mk ['F', '#', '2']) = ⟨String.mk ['F', '#'], digitVal '2'⟩ :=
  parse_note_pattern_or_fallback.2.1 'F' '#' '2' (by decide) (by decide) (by decide)

end Sax
